import Mathlib

/-!
Shallow embedding of the wilmerfh compiler (lexer, recursive-descent parser,
scope-aware semantic analyzer, C code generator) from the Rust sources
`src/lexer.rs`, `src/parser.rs`, `src/ast.rs`, `src/semantic_analyzer.rs`,
`src/code_generator.rs`, together with theorems settling the frozen claims.

Modelling conventions:
- Rust `String` source text is modelled as `List Char`, with the lexer cursor
  `pos` an index into that list.  (The Rust code indexes with
  `chars().nth(pos)` and slices with the same `pos`; the two agree on ASCII
  input, which is all the language's token set admits.)
- Rust `char::is_whitespace` / `is_alphabetic` / `is_alphanumeric` /
  `is_digit(10)` are modelled by `Char.isWhitespace` / `Char.isAlpha` /
  `Char.isAlphanum` / `Char.isDigit`, which agree with the Rust predicates on
  ASCII characters.
- `panic!` (lexer on an unrecognized character, the `unwrap` on numeric
  overflow, and every parse error) is modelled as an explicit failure value
  (`LexStep.fail`, `Option.none`).
- Rust's `i32` literal values are modelled as `Int`; `str::parse::<i32>`
  on an all-digit string succeeds exactly when the value is at most
  2147483647, so the overflow check is explicit.
- The iteration of the lexer (`collect`) and the parser's recursion are
  driven by a fuel parameter; the fuel chosen at the entry points is ample
  for the recursion depth (the Rust loops terminate because every step
  advances the cursor).
- `StatementList { statements: Vec<Statement> }` and
  `Block { statements: Box<StatementList> }` are plain wrappers around a
  statement vector; both are modelled as `List Statement`.
- `HashSet<String>` scopes are modelled as duplicate-free `List String`
  with membership-tested insertion; the scope stack `Vec<HashSet<String>>`
  (innermost scope last, `iter().rev()` for lookup) is modelled with the
  innermost scope at the HEAD of the list, so Rust `push`/`pop`/`last_mut`
  become `cons`/`tail`/head update, and the innermost-first lookup order is
  the list order.
-/

/-! ## Data model (`src/ast.rs`) -/

/-- Token type from `src/lexer.rs`. -/
inductive Token where
  | Identifier (name : String)
  | Number (n : Int)
  | Let
  | Loop
  | Plus
  | Equals
  | Semicolon
  | OpenBracket
  | CloseBracket
  | Print
deriving DecidableEq

/-- Expression leaf from `src/ast.rs`: an identifier or an integer literal. -/
inductive Term where
  | Identifier (name : String)
  | Number (n : Int)
deriving DecidableEq

/-- Right-leaning addition chain from `src/ast.rs`:
`Expr { lhs: Term, rhs: Option<Box<Expr>> }`. -/
inductive Expr where
  | mk (lhs : Term) (rhs : Option Expr)

/-- Statements from `src/ast.rs`.  `LetStatement`, `AssignmentStatement`,
`LoopStatement` and `PrintStatement` are inlined into the constructors; the
loop body's `Block`/`StatementList` wrappers are modelled as
`List Statement`. -/
inductive Statement where
  | Let (identifier : String) (value : Expr)
  | Assignment (identifier : String) (value : Expr)
  | Loop (count : Expr) (body : List Statement)
  | Print (value : Expr)

/-- Root of the tree: `AbstractSyntaxTree { statements: StatementList }`. -/
structure AbstractSyntaxTree where
  statement_list : List Statement

/-! ## Lexer (`src/lexer.rs`) -/

/-- Number of leading characters of `l` satisfying `p`.  Helper for the three
scanning `while` loops of the lexer. -/
def scanWhileAux (p : Char → Bool) : List Char → Nat
  | [] => 0
  | c :: rest => if p c then scanWhileAux p rest + 1 else 0

/-- Cursor position after advancing over the maximal run of characters
satisfying `p`, starting from `pos`.  This models the lexer's
`while let Some(c) = self.current_char() { if p(c) { self.pos += 1 } else { break } }`
loops. -/
def scanWhile (p : Char → Bool) (src : List Char) (pos : Nat) : Nat :=
  pos + scanWhileAux p (src.drop pos)

/-- `Lexer::skip_whitespace`: skip a maximal run of whitespace. -/
def skip_whitespace (src : List Char) (pos : Nat) : Nat :=
  scanWhile Char.isWhitespace src pos

/-- Keyword remapping at the end of `Lexer::try_parse_identifier`. -/
def keywordOrIdent (s : String) : Token :=
  if s = "let" then Token.Let
  else if s = "loop" then Token.Loop
  else if s = "print" then Token.Print
  else Token.Identifier s

/-- `Lexer::try_parse_identifier`: a maximal alphabetic-then-alphanumeric run,
remapped to a keyword token when it matches a reserved word.  Returns the
token and the new cursor position, or `none` when the current character does
not start an identifier. -/
def try_parse_identifier (src : List Char) (pos : Nat) : Option (Token × Nat) :=
  match src.get? pos with
  | none => none
  | some c =>
    if c.isAlpha then
      let stop := scanWhile Char.isAlphanum src (pos + 1)
      some (keywordOrIdent (((src.drop pos).take (stop - pos)).asString), stop)
    else none

/-- Decimal value of a digit string (the value `str::parse` computes). -/
def digitsToNat (l : List Char) : Nat :=
  l.foldl (fun a c => 10 * a + (c.toNat - 48)) 0

/-- `Lexer::try_parse_number`: a maximal digit run parsed as an `i32`.
`none`: the current character is not a digit.  `some (.error stop)`: the run's
value overflows `i32`, so `parse::<i32>().unwrap()` panics with the cursor
already advanced to `stop`.  `some (.ok (tok, stop))`: the number token and
the new cursor position. -/
def try_parse_number (src : List Char) (pos : Nat) :
    Option (Except Nat (Token × Nat)) :=
  match src.get? pos with
  | none => none
  | some c =>
    if c.isDigit then
      let stop := scanWhile Char.isDigit src (pos + 1)
      let value := digitsToNat ((src.drop pos).take (stop - pos))
      if value ≤ 2147483647 then some (.ok (Token.Number (Int.ofNat value), stop))
      else some (.error stop)
    else none

/-- Single-character symbol tokens of `Lexer::next`. -/
def symbolToken (c : Char) : Option Token :=
  if c = '+' then some Token.Plus
  else if c = '=' then some Token.Equals
  else if c = ';' then some Token.Semicolon
  else if c = '\x7b' then some Token.OpenBracket
  else if c = '\x7d' then some Token.CloseBracket
  else none

/-- Outcome of one call to `Lexer::next` (`Iterator::next`). -/
inductive LexStep where
  | eof
  | tok (t : Token) (pos : Nat)
  | fail (pos : Nat)
deriving DecidableEq

/-- `Lexer::next`: skip whitespace; at end of input stop; otherwise try, in
order, identifier/keyword, number, single-character symbol; if none matches,
panic (`LexStep.fail` carries the cursor position at the panic). -/
def lexNext (src : List Char) (pos : Nat) : LexStep :=
  let p := skip_whitespace src pos
  match src.get? p with
  | none => .eof
  | some c =>
    match try_parse_identifier src p with
    | some (t, p') => .tok t p'
    | none =>
      match try_parse_number src p with
      | some (.ok (t, p')) => .tok t p'
      | some (.error pf) => .fail pf
      | none =>
        match symbolToken c with
        | some _t => .tok _t (p + 1)
        | none => .fail p

/-- Outcome of draining the lexer (`lexer.collect::<Vec<_>>()`):
`done` = iteration stopped at end of input, `failed p` = a `panic!` occurred
with the cursor at `p`, `fuelOut` = the driving fuel ran out (never happens
for the ample fuel used at the entry point). -/
inductive LexOutcome where
  | done
  | failed (pos : Nat)
  | fuelOut
deriving DecidableEq

/-- Drain the lexer from `pos`, collecting the produced tokens in order
together with the outcome. -/
def lexRun : Nat → List Char → Nat → List Token × LexOutcome
  | 0, _, _ => ([], .fuelOut)
  | fuel + 1, src, pos =>
    match lexNext src pos with
    | .eof => ([], .done)
    | .fail p => ([], .failed p)
    | .tok t p' =>
      let r := lexRun fuel src p'
      (t :: r.1, r.2)

/-- The full tokenization of a source text (`Lexer::new(src)` then
`collect()`).  The fuel `src.length + 1` is ample: every produced token
advances the cursor by at least one character. -/
def lexAll (src : List Char) : List Token × LexOutcome :=
  lexRun (src.length + 1) src 0

/-! ## Parser (`src/parser.rs`) -/

/-- Parser state: the token vector and the current position. -/
structure Parser where
  tokens : List Token
  position : Nat

/-- `Parser::current_token`. -/
def Parser.currentToken (p : Parser) : Option Token :=
  p.tokens.get? p.position

/-- `Parser::consume_token`: returns the token at the current position (if
any) and advances the position unconditionally. -/
def Parser.consumeToken (p : Parser) : Option Token × Parser :=
  (p.tokens.get? p.position, { p with position := p.position + 1 })

mutual

/-- `Parser::parse_statement_list`: parse statements while tokens remain
(the top-level list stops only at end of input).  Every `panic!` of the
source is `none`. -/
def parseStatementList : Nat → Parser → Option (List Statement × Parser)
  | 0, _ => none
  | fuel + 1, p =>
    match p.currentToken with
    | none => some ([], p)
    | some _ => do
      let (s, p1) ← parseStatement fuel p
      let (rest, p2) ← parseStatementList fuel p1
      some (s :: rest, p2)

/-- `Parser::parse_statement`: dispatch on the current token; any other
leading token panics. -/
def parseStatement : Nat → Parser → Option (Statement × Parser)
  | 0, _ => none
  | fuel + 1, p =>
    match p.currentToken with
    | some Token.Let => parseLetStatement fuel p
    | some (Token.Identifier _) => parseAssignmentStatement fuel p
    | some Token.Loop => parseLoopStatement fuel p
    | some Token.Print => parsePrintStatement fuel p
    | _ => none

/-- `Parser::parse_let_statement`. -/
def parseLetStatement : Nat → Parser → Option (Statement × Parser)
  | 0, _ => none
  | fuel + 1, p =>
    match p.consumeToken with
    | (some Token.Let, p1) =>
      match p1.consumeToken with
      | (some (Token.Identifier id), p2) =>
        match p2.consumeToken with
        | (some Token.Equals, p3) => do
          let (v, p4) ← parseExpression fuel p3
          match p4.consumeToken with
          | (some Token.Semicolon, p5) => some (Statement.Let id v, p5)
          | _ => none
        | _ => none
      | _ => none
    | _ => none

/-- `Parser::parse_assignment_statement`. -/
def parseAssignmentStatement : Nat → Parser → Option (Statement × Parser)
  | 0, _ => none
  | fuel + 1, p =>
    match p.consumeToken with
    | (some (Token.Identifier id), p1) =>
      match p1.consumeToken with
      | (some Token.Equals, p2) => do
        let (v, p3) ← parseExpression fuel p2
        match p3.consumeToken with
        | (some Token.Semicolon, p4) => some (Statement.Assignment id v, p4)
        | _ => none
      | _ => none
    | _ => none

/-- The statement loop of `Parser::parse_block`: parse statements until the
current token is `}` (reaching end of input first makes `parse_statement`
panic). -/
def parseBlockStatements : Nat → Parser → Option (List Statement × Parser)
  | 0, _ => none
  | fuel + 1, p =>
    match p.currentToken with
    | some Token.CloseBracket => some ([], p)
    | _ => do
      let (s, p1) ← parseStatement fuel p
      let (rest, p2) ← parseBlockStatements fuel p1
      some (s :: rest, p2)

/-- `Parser::parse_block`: `{`, statements until `}`, `}`. -/
def parseBlock : Nat → Parser → Option (List Statement × Parser)
  | 0, _ => none
  | fuel + 1, p =>
    match p.consumeToken with
    | (some Token.OpenBracket, p1) => do
      let (stmts, p2) ← parseBlockStatements fuel p1
      match p2.consumeToken with
      | (some Token.CloseBracket, p3) => some (stmts, p3)
      | _ => none
    | _ => none

/-- `Parser::parse_loop_statement`: `loop`, bound expression, block, `;`. -/
def parseLoopStatement : Nat → Parser → Option (Statement × Parser)
  | 0, _ => none
  | fuel + 1, p =>
    match p.consumeToken with
    | (some Token.Loop, p1) => do
      let (cond, p2) ← parseExpression fuel p1
      let (body, p3) ← parseBlock fuel p2
      match p3.consumeToken with
      | (some Token.Semicolon, p4) => some (Statement.Loop cond body, p4)
      | _ => none
    | _ => none

/-- `Parser::parse_print_statement`. -/
def parsePrintStatement : Nat → Parser → Option (Statement × Parser)
  | 0, _ => none
  | fuel + 1, p =>
    match p.consumeToken with
    | (some Token.Print, p1) => do
      let (v, p2) ← parseExpression fuel p1
      match p2.consumeToken with
      | (some Token.Semicolon, p3) => some (Statement.Print v, p3)
      | _ => none
    | _ => none

/-- `Parser::parse_expression`: one `Term`, then an optional `+`-continuation
parsed recursively (right-associative chain). -/
def parseExpression : Nat → Parser → Option (Expr × Parser)
  | 0, _ => none
  | fuel + 1, p =>
    let (t, p1) := p.consumeToken
    match t with
    | some (Token.Identifier name) =>
      parseExpressionRhs fuel (Term.Identifier name) p1
    | some (Token.Number n) =>
      parseExpressionRhs fuel (Term.Number n) p1
    | _ => none

/-- The `rhs` half of `Parser::parse_expression`: if the current token is
`+`, consume it and recurse; otherwise the chain ends here. -/
def parseExpressionRhs : Nat → Term → Parser → Option (Expr × Parser)
  | 0, _, _ => none
  | fuel + 1, lhs, p =>
    match p.currentToken with
    | some Token.Plus =>
      let (_t, p1) := p.consumeToken
      do
        let (r, p2) ← parseExpression fuel p1
        some (Expr.mk lhs (some r), p2)
    | _ => some (Expr.mk lhs none, p)

end

/-- `Parser::parse`: parse the top-level statement list into the tree.  The
fuel is ample for the recursion depth (every recursive call of the source
consumes at least one token per constant number of nested calls). -/
def Parser.parse (tokens : List Token) : Option AbstractSyntaxTree :=
  (parseStatementList (4 * tokens.length + 4) { tokens := tokens, position := 0 }).map
    (fun r => { statement_list := r.1 })

/-! ## Semantic analyzer (`src/semantic_analyzer.rs`) -/

/-- Semantic error type. -/
inductive SemanticError where
  | UndeclaredVariable (name : String)
deriving DecidableEq

/-- `HashSet::insert` on a scope modelled as a duplicate-free list. -/
def scopeInsert (s : List String) (name : String) : List String :=
  if name ∈ s then s else name :: s

/-- `ScopeStack::declare`: insert into the innermost scope (the list head;
no-op on an empty stack, as `last_mut` returns `None`). -/
def declare (st : List (List String)) (name : String) : List (List String) :=
  match st with
  | [] => []
  | s :: rest => scopeInsert s name :: rest

/-- `ScopeStack::declared`: search the scopes innermost-first
(`iter().rev()` on the Rust vector). -/
def declared (st : List (List String)) (name : String) : Bool :=
  st.any (fun s => name ∈ s)

/-- Analyzer state: the scope stack and the accumulated error list. -/
structure AnalyzerS where
  scopes : List (List String)
  errors : List SemanticError

/-- `SemanticAnalyzer::analyze_term`: an identifier not visible in any scope
appends one `UndeclaredVariable` error; numbers are always valid. -/
def analyzeTerm (t : Term) (a : AnalyzerS) : AnalyzerS :=
  match t with
  | .Identifier name =>
    if declared a.scopes name then a
    else { a with errors := a.errors ++ [SemanticError.UndeclaredVariable name] }
  | .Number _ => a

/-- `SemanticAnalyzer::analyze_expression`: the `lhs` term, then the `rhs`
chain. -/
def analyzeExpression : Expr → AnalyzerS → AnalyzerS
  | .mk lhs none, a => analyzeTerm lhs a
  | .mk lhs (some rhs), a => analyzeExpression rhs (analyzeTerm lhs a)

mutual

/-- `SemanticAnalyzer::analyze_statement` (with the four per-statement
methods inlined): `let` declares, then analyzes the initializer; assignment
checks the target, then analyzes the value; `loop` analyzes the bound, pushes
a scope, analyzes the body, pops the scope; `print` analyzes the value. -/
def analyzeStatement : Statement → AnalyzerS → AnalyzerS
  | .Let id v, a => analyzeExpression v { a with scopes := declare a.scopes id }
  | .Assignment id v, a =>
    analyzeExpression v
      (if declared a.scopes id then a
       else { a with errors := a.errors ++ [SemanticError.UndeclaredVariable id] })
  | .Loop c body, a =>
    let a1 := analyzeExpression c a
    let a2 := analyzeStatementList body { a1 with scopes := [] :: a1.scopes }
    { a2 with scopes := a2.scopes.tail }
  | .Print v, a => analyzeExpression v a

/-- `SemanticAnalyzer::analyze_statement_list`: statements in textual
order. -/
def analyzeStatementList : List Statement → AnalyzerS → AnalyzerS
  | [], a => a
  | s :: rest, a => analyzeStatementList rest (analyzeStatement s a)

end

/-- `SemanticAnalyzer::analyze`: start with one empty scope, walk the tree,
return success when the error list is empty and the full error list
otherwise. -/
def SemanticAnalyzer.analyze (ast : AbstractSyntaxTree) :
    Except (List SemanticError) Unit :=
  let a := analyzeStatementList ast.statement_list { scopes := [[]], errors := [] }
  if a.errors.isEmpty then .ok () else .error a.errors

/-! ## Code generator (`src/code_generator.rs`) -/

/-- `generate_term`: decimal text of a number, the name of an identifier. -/
def generate_term : Term → String
  | .Number n => toString n
  | .Identifier id => id

/-- `generate_expression`: infix `+`-joined rendering of the chain. -/
def generate_expression : Expr → String
  | .mk lhs none => generate_term lhs
  | .mk lhs (some rhs) => generate_term lhs ++ " + " ++ generate_expression rhs

mutual

/-- `generate_statement` with the four per-statement functions inlined
(`generate_let_statement`, `generate_assignment_statement`,
`generate_loop_statement` together with the `generate_block` it calls, and
`generate_print_statement`); the named wrappers `generate_loop_statement`
and `generate_block` are split out again, definitionally, right after this
mutual block. -/
def generate_statement : Statement → String
  | .Let id v => "int " ++ id ++ " = " ++ generate_expression v ++ ";\n"
  | .Assignment id v => id ++ " = " ++ generate_expression v ++ ";\n"
  | .Loop c body =>
    "for (int _ = 0; _ < " ++ generate_expression c ++ "; _++) " ++
      ("\x7b\n" ++ generate_statement_list body ++ "\x7d\n")
  | .Print v => "printf(\"%d\\n\", " ++ generate_expression v ++ ");\n"

/-- `generate_statement_list`. -/
def generate_statement_list : List Statement → String
  | [] => ""
  | s :: rest => generate_statement s ++ generate_statement_list rest

end

/-- `generate_block`. -/
def generate_block (body : List Statement) : String :=
  "\x7b\n" ++ generate_statement_list body ++ "\x7d\n"

/-- `generate_loop_statement`: the bound expression's translated text is
re-embedded as the loop condition. -/
def generate_loop_statement (c : Expr) (body : List Statement) : String :=
  "for (int _ = 0; _ < " ++ generate_expression c ++ "; _++) " ++ generate_block body

/-- `generate_c_code`: fixed preamble, the translated top-level statements,
and the closing `return 0;`. -/
def generate_c_code (ast : AbstractSyntaxTree) : String :=
  "#include <stdio.h>\n" ++ "int main() \x7b\n" ++
    generate_statement_list ast.statement_list ++ "return 0;\n" ++ "\x7d\n"

/-! ## The pipeline (`src/main.rs`, CLI excluded) -/

/-- The core pipeline on a source string: tokenize (a lexer panic aborts:
`none`), parse (a parse panic aborts: `none`), analyze (semantic errors are
returned as a value), generate.  -/
def compile (s : String) : Option (Except (List SemanticError) String) :=
  match lexAll s.toList with
  | (tokens, .done) =>
    match Parser.parse tokens with
    | some ast =>
      match SemanticAnalyzer.analyze ast with
      | .ok _ => some (.ok (generate_c_code ast))
      | .error errs => some (.error errs)
    | none => none
  | _ => none

/-! ## Claims about the pipeline and the generator -/

/-- Claim C1: for every source string that compiles without error, the
pipeline (lex, parse, analyze, generate) is a deterministic function of the
input text — two runs on the same string yield the same output string — and
`generate_c_code` is a pure function of the tree. -/
theorem claim_C1_pipeline_deterministic :
    (∀ (s : String) (r1 r2 : String),
        compile s = some (Except.ok r1) → compile s = some (Except.ok r2) → r1 = r2) ∧
    (∀ t1 t2 : AbstractSyntaxTree, t1 = t2 → generate_c_code t1 = generate_c_code t2) := by
  constructor
  · intro s r1 r2 h1 h2
    rw [h1] at h2
    simpa using h2
  · intro t1 t2 h
    rw [h]

/-- Witness for C1: a concrete successful compilation, with the determinism
theorem applied to it. -/
theorem claim_C1_witness :
    compile "let x = 5; print x;" =
      some (Except.ok
        "#include <stdio.h>\nint main() \x7b\nint x = 5;\nprintf(\"%d\\n\", x);\nreturn 0;\n\x7d\n") ∧
    "#include <stdio.h>\nint main() \x7b\nint x = 5;\nprintf(\"%d\\n\", x);\nreturn 0;\n\x7d\n" =
      "#include <stdio.h>\nint main() \x7b\nint x = 5;\nprintf(\"%d\\n\", x);\nreturn 0;\n\x7d\n" :=
  ⟨rfl, claim_C1_pipeline_deterministic.1 "let x = 5; print x;" _ _ rfl rfl⟩

/-- Claim C2: for every `LoopStatement` with bound `c` and body `body`, the
generated text is exactly the counting construct that re-embeds the
translated bound expression text as the per-iteration condition; the bound is
not cached into a temporary before the loop. -/
theorem claim_C2_loop_reembeds_bound (c : Expr) (body : List Statement) :
    generate_statement (Statement.Loop c body) = generate_loop_statement c body ∧
    generate_loop_statement c body =
      "for (int _ = 0; _ < " ++ generate_expression c ++ "; _++) " ++ generate_block body :=
  ⟨rfl, rfl⟩

/-- Claim C8: `let x = 1 + 2 + 3;` lexes as expected, parses its `Expr` into
a right-nested chain of three `Term`s, and `generate_expression` of that
chain renders exactly `1 + 2 + 3`. -/
theorem claim_C8_right_nested_chain :
    lexAll "let x = 1 + 2 + 3;".toList =
      ([Token.Let, Token.Identifier "x", Token.Equals, Token.Number 1, Token.Plus,
        Token.Number 2, Token.Plus, Token.Number 3, Token.Semicolon], .done) ∧
    Parser.parse [Token.Let, Token.Identifier "x", Token.Equals, Token.Number 1, Token.Plus,
        Token.Number 2, Token.Plus, Token.Number 3, Token.Semicolon] =
      some { statement_list := [Statement.Let "x"
        (Expr.mk (Term.Number 1) (some (Expr.mk (Term.Number 2)
          (some (Expr.mk (Term.Number 3) none)))))] } ∧
    generate_expression (Expr.mk (Term.Number 1) (some (Expr.mk (Term.Number 2)
        (some (Expr.mk (Term.Number 3) none))))) = "1 + 2 + 3" :=
  ⟨rfl, rfl, rfl⟩

/-- Claim C9: the analyzer declares a `let`'s identifier into the innermost
scope before analyzing the initializer expression; consequently
`let x = x;` passes semantic analysis with an empty error list. -/
theorem claim_C9_let_declares_before_initializer :
    (∀ (id : String) (v : Expr) (a : AnalyzerS),
        analyzeStatement (Statement.Let id v) a =
          analyzeExpression v { a with scopes := declare a.scopes id }) ∧
    (∀ x : String,
        SemanticAnalyzer.analyze
          { statement_list := [Statement.Let x (Expr.mk (Term.Identifier x) none)] } =
          .ok ()) := by
  refine ⟨fun id v a => rfl, fun x => ?_⟩
  simp [SemanticAnalyzer.analyze, analyzeStatementList, analyzeStatement,
    analyzeExpression, analyzeTerm, declare, scopeInsert, declared]

/-- Claim C10: compiling the empty input succeeds with no lexical, syntactic
or semantic error: the token sequence is empty, the tree has an empty
top-level statement list, analysis succeeds, and the output is exactly the
boilerplate. -/
theorem claim_C10_empty_input :
    lexAll "".toList = ([], .done) ∧
    Parser.parse [] = some { statement_list := [] } ∧
    SemanticAnalyzer.analyze { statement_list := [] } = .ok () ∧
    compile "" = some (Except.ok "#include <stdio.h>\nint main() \x7b\nreturn 0;\n\x7d\n") :=
  ⟨rfl, rfl, rfl, rfl⟩

/-! ## Specification-side description of semantic analysis (for C4/C3)

The next four definitions follow the words of the spec rather than the Rust
code: "Visiting order is a full depth-first traversal of the tree (statements
in textual order; expression Terms left-to-right along the chain); every
undeclared identifier occurrence — whether an assignment target or an
expression reference — produces one UndeclaredVariable(name) error appended
to a running error list", with the scope stack evolving exactly as §4.3
describes (`let` declares into the innermost scope, a loop body pushes a
scope on entry and pops it on exit).  They return the bare list of
undeclared-occurrence names in traversal order, threading the scope stack
functionally; the refinement theorems below prove the analyzer equal to
them. -/

/-- Names of undeclared occurrences in one term (spec wording). -/
def specUndeclaredTerm (st : List (List String)) : Term → List String
  | .Identifier name => if declared st name then [] else [name]
  | .Number _ => []

/-- Names of undeclared occurrences in an expression, Terms left-to-right
along the chain (spec wording). -/
def specUndeclaredExpr (st : List (List String)) : Expr → List String
  | .mk lhs none => specUndeclaredTerm st lhs
  | .mk lhs (some rhs) => specUndeclaredTerm st lhs ++ specUndeclaredExpr st rhs

mutual

/-- Undeclared-occurrence names of one statement in depth-first order,
together with the scope stack after the statement (spec wording): `let`
declares (then its initializer is visited), an assignment's target counts as
a use, a loop visits its bound, then its body inside a pushed-and-popped
scope. -/
def specUndeclaredStatement : Statement → List (List String) → List String × List (List String)
  | .Let id v, st =>
    let st1 := declare st id
    (specUndeclaredExpr st1 v, st1)
  | .Assignment id v, st =>
    ((if declared st id then [] else [id]) ++ specUndeclaredExpr st v, st)
  | .Loop c body, st =>
    (specUndeclaredExpr st c ++ (specUndeclaredList body ([] :: st)).1, st)
  | .Print v, st => (specUndeclaredExpr st v, st)

/-- Undeclared-occurrence names of a statement list, statements in textual
order (spec wording). -/
def specUndeclaredList : List Statement → List (List String) → List String × List (List String)
  | [], st => ([], st)
  | s :: rest, st =>
    let r1 := specUndeclaredStatement s st
    let r2 := specUndeclaredList rest r1.2
    (r1.1 ++ r2.1, r2.2)

end

/-- Undeclared-occurrence names of a whole program, starting from the single
empty scope. -/
def specUndeclaredProgram (ast : AbstractSyntaxTree) : List String :=
  (specUndeclaredList ast.statement_list [[]]).1

/-! ## Refinement lemmas: the analyzer computes the spec's occurrence list -/

theorem analyzeTerm_spec (t : Term) (st : List (List String))
    (errs : List SemanticError) :
    analyzeTerm t { scopes := st, errors := errs } =
      { scopes := st,
        errors := errs ++ (specUndeclaredTerm st t).map SemanticError.UndeclaredVariable } := by
  cases t with
  | Identifier name =>
    by_cases h : declared st name = true <;>
      simp [analyzeTerm, specUndeclaredTerm, h]
  | Number n => simp [analyzeTerm, specUndeclaredTerm]

theorem analyzeExpression_spec :
    (e : Expr) → ∀ (st : List (List String)) (errs : List SemanticError),
    analyzeExpression e { scopes := st, errors := errs } =
      { scopes := st,
        errors := errs ++ (specUndeclaredExpr st e).map SemanticError.UndeclaredVariable }
  | .mk lhs none, st, errs => by
    simp [analyzeExpression, specUndeclaredExpr, analyzeTerm_spec]
  | .mk lhs (some rhs), st, errs => by
    have ih := analyzeExpression_spec rhs
    simp [analyzeExpression, specUndeclaredExpr, analyzeTerm_spec, ih]

mutual

theorem specUndeclaredStatement_scopes :
    (s : Statement) → ∀ (top : List String) (st : List (List String)),
    ∃ top2, (specUndeclaredStatement s (top :: st)).2 = top2 :: st
  | .Let id v => fun top st => ⟨scopeInsert top id, by simp [specUndeclaredStatement, declare]⟩
  | .Assignment id v => fun top st => ⟨top, by simp [specUndeclaredStatement]⟩
  | .Loop c body => fun top st => ⟨top, by simp [specUndeclaredStatement]⟩
  | .Print v => fun top st => ⟨top, by simp [specUndeclaredStatement]⟩

theorem specUndeclaredList_scopes :
    (l : List Statement) → ∀ (top : List String) (st : List (List String)),
    ∃ top2, (specUndeclaredList l (top :: st)).2 = top2 :: st
  | [] => fun top st => ⟨top, by simp [specUndeclaredList]⟩
  | s :: rest => fun top st => by
    obtain ⟨t1, h1⟩ := specUndeclaredStatement_scopes s top st
    obtain ⟨t2, h2⟩ := specUndeclaredList_scopes rest t1 st
    exact ⟨t2, by simp [specUndeclaredList, h1, h2]⟩

end

mutual

theorem analyzeStatement_spec :
    (s : Statement) → ∀ (st : List (List String)) (errs : List SemanticError),
    analyzeStatement s { scopes := st, errors := errs } =
      { scopes := (specUndeclaredStatement s st).2,
        errors := errs ++ ((specUndeclaredStatement s st).1).map SemanticError.UndeclaredVariable }
  | .Let id v, st, errs => by
    simp [analyzeStatement, specUndeclaredStatement, analyzeExpression_spec]
  | .Assignment id v, st, errs => by
    by_cases h : declared st id = true <;>
      simp [analyzeStatement, specUndeclaredStatement, analyzeExpression_spec, h]
  | .Loop c body, st, errs => by
    have ihl := analyzeStatementList_spec body ([] :: st)
      (errs ++ (specUndeclaredExpr st c).map SemanticError.UndeclaredVariable)
    obtain ⟨t2, h2⟩ := specUndeclaredList_scopes body [] st
    simp [analyzeStatement, specUndeclaredStatement, analyzeExpression_spec, ihl, h2]
  | .Print v, st, errs => by
    simp [analyzeStatement, specUndeclaredStatement, analyzeExpression_spec]

theorem analyzeStatementList_spec :
    (l : List Statement) → ∀ (st : List (List String)) (errs : List SemanticError),
    analyzeStatementList l { scopes := st, errors := errs } =
      { scopes := (specUndeclaredList l st).2,
        errors := errs ++ ((specUndeclaredList l st).1).map SemanticError.UndeclaredVariable }
  | [], st, errs => by simp [analyzeStatementList, specUndeclaredList]
  | s :: rest, st, errs => by
    have ihs := analyzeStatement_spec s st errs
    have ihl := analyzeStatementList_spec rest (specUndeclaredStatement s st).2
      (errs ++ ((specUndeclaredStatement s st).1).map SemanticError.UndeclaredVariable)
    simp [analyzeStatementList, specUndeclaredList, ihs, ihl]

end

/-- Claim C4: for every tree in which undeclared identifiers occur in `N`
distinct positions (assignment targets and expression Terms alike), semantic
analysis returns the error list of length exactly `N`, in depth-first
traversal order, each error naming the identifier at its position; traversal
never short-circuits.  Formally: the analyzer's result is exactly the
spec-side depth-first occurrence list, wrapped in `UndeclaredVariable`. -/
theorem claim_C4_full_accumulation (ast : AbstractSyntaxTree) :
    SemanticAnalyzer.analyze ast =
      (if (specUndeclaredProgram ast).isEmpty then Except.ok ()
       else Except.error
         ((specUndeclaredProgram ast).map SemanticError.UndeclaredVariable)) := by
  have h := analyzeStatementList_spec ast.statement_list [[]] []
  cases hn : (specUndeclaredList ast.statement_list [[]]).1 with
  | nil => simp [SemanticAnalyzer.analyze, h, specUndeclaredProgram, hn]
  | cons a l => simp [SemanticAnalyzer.analyze, h, specUndeclaredProgram, hn]

/-- Claim C3: a name declared by `let` only inside a loop body is invisible
after the loop (entering the body pushes a scope, leaving pops it); using it
in exactly one position after the loop makes analysis fail with exactly one
`UndeclaredVariable` error carrying that name.  The hypotheses say the body
declares `x` and the loop statement itself is free of violations. -/
theorem claim_C3_loop_scope_popped (e : Expr) (body : List Statement) (x : String)
    (v : Expr) (_hdecl : Statement.Let x v ∈ body)
    (hclean : (specUndeclaredStatement (Statement.Loop e body) [[]]).1 = []) :
    SemanticAnalyzer.analyze
      { statement_list := [Statement.Loop e body,
          Statement.Print (Expr.mk (Term.Identifier x) none)] } =
      .error [SemanticError.UndeclaredVariable x] := by
  have h := analyzeStatementList_spec
    [Statement.Loop e body, Statement.Print (Expr.mk (Term.Identifier x) none)] [[]] []
  simp only [specUndeclaredStatement, List.append_eq_nil] at hclean
  simp only [SemanticAnalyzer.analyze, h, List.nil_append]
  simp [specUndeclaredList, specUndeclaredStatement, specUndeclaredExpr,
    specUndeclaredTerm, declared, hclean.1, hclean.2]

/-- Witness for C3 (the repository's own `test_loop_scope_violation`
program, `loop 5 { let x = 10; }; print x;`). -/
theorem claim_C3_witness :
    SemanticAnalyzer.analyze
      { statement_list := [Statement.Loop (Expr.mk (Term.Number 5) none)
          [Statement.Let "x" (Expr.mk (Term.Number 10) none)],
          Statement.Print (Expr.mk (Term.Identifier "x") none)] } =
      .error [SemanticError.UndeclaredVariable "x"] :=
  claim_C3_loop_scope_popped (Expr.mk (Term.Number 5) none)
    [Statement.Let "x" (Expr.mk (Term.Number 10) none)] "x"
    (Expr.mk (Term.Number 10) none) (List.mem_singleton.mpr rfl) rfl

/-- Counterexample to claim C5 as stated: the token sequence of the valid
statement `let x = 5;` parses fine on its own (first conjunct), but with a
`}` token appended, parsing the top-level program is a fatal parse error
(`none`) instead of stopping at the `}`. -/
theorem claim_C5_counterexample :
    parseStatementList 24
      { tokens := [Token.Let, Token.Identifier "x", Token.Equals, Token.Number 5,
          Token.Semicolon], position := 0 } =
      some ([Statement.Let "x" (Expr.mk (Term.Number 5) none)],
        { tokens := [Token.Let, Token.Identifier "x", Token.Equals, Token.Number 5,
            Token.Semicolon], position := 5 }) ∧
    Parser.parse [Token.Let, Token.Identifier "x", Token.Equals, Token.Number 5,
        Token.Semicolon, Token.CloseBracket] = none :=
  ⟨rfl, rfl⟩

/-- Claim C5, amended: the TOP-LEVEL statement list stops only at
end-of-input; a `}` at the start of a statement position is, like any other
unexpected leading token, a fatal parse error (only a block's statement list
stops at `}`). -/
theorem claim_C5_top_level_stops_only_at_eof :
    (∀ (fuel : Nat) (p : Parser), p.currentToken = some Token.CloseBracket →
        parseStatement fuel p = none) ∧
    (∀ (fuel : Nat) (p : Parser), p.currentToken = none →
        parseStatementList (fuel + 1) p = some ([], p)) := by
  constructor
  · intro fuel p h
    cases fuel with
    | zero => rfl
    | succ n => simp [parseStatement, h]
  · intro fuel p h
    simp [parseStatementList, h]

/-- Witness for the amended C5, at a concrete parser state. -/
theorem claim_C5_witness :
    parseStatement 9 { tokens := [Token.CloseBracket], position := 0 } = none ∧
    parseStatementList 3 { tokens := [Token.Let], position := 1 } =
      some ([], { tokens := [Token.Let], position := 1 }) :=
  ⟨claim_C5_top_level_stops_only_at_eof.1 9 _ rfl,
   claim_C5_top_level_stops_only_at_eof.2 2 _ rfl⟩

/-! ## Lexer lemmas (for C6/C7) -/

/-- A character that starts no token: not whitespace, not an identifier
start, not a digit, not one of the five symbols. -/
def badChar (c : Char) : Prop :=
  c.isWhitespace = false ∧ c.isAlpha = false ∧ c.isDigit = false ∧ symbolToken c = none

instance (c : Char) : Decidable (badChar c) := by
  unfold badChar
  infer_instance

theorem badChar_not_alphanum {c : Char} (h : badChar c) : c.isAlphanum = false := by
  simp [Char.isAlphanum, h.2.1, h.2.2.1]

theorem isDigit_not_isAlpha {c : Char} (h : c.isDigit = true) : c.isAlpha = false := by
  have e48 : (UInt32.toBitVec 48).toNat = 48 := rfl
  have e57 : (UInt32.toBitVec 57).toNat = 57 := rfl
  have e65 : (UInt32.toBitVec 65).toNat = 65 := rfl
  have e90 : (UInt32.toBitVec 90).toNat = 90 := rfl
  have e97 : (UInt32.toBitVec 97).toNat = 97 := rfl
  have e122 : (UInt32.toBitVec 122).toNat = 122 := rfl
  simp only [Char.isDigit, Char.isAlpha, Char.isUpper, Char.isLower, Bool.and_eq_true,
    Bool.or_eq_false_iff, Bool.and_eq_false_iff, decide_eq_true_eq, decide_eq_false_iff_not,
    ge_iff_le, not_le, UInt32.le_def, BitVec.le_def, e48, e57, e65, e90, e97, e122] at *
  omega

theorem get?_some_lt {l : List Char} {n : Nat} {a : Char} (h : l.get? n = some a) :
    n < l.length := by
  rw [List.get?_eq_getElem?] at h
  exact (List.getElem?_eq_some.mp h).1

theorem scanWhileAux_le_length (p : Char → Bool) (l : List Char) :
    scanWhileAux p l ≤ l.length := by
  induction l with
  | nil => simp [scanWhileAux]
  | cons c rest ih =>
    by_cases h : p c = true <;> simp [scanWhileAux, h, ih]

theorem scanWhile_ge (p : Char → Bool) (src : List Char) (pos : Nat) :
    pos ≤ scanWhile p src pos :=
  Nat.le_add_right pos _

theorem scanWhile_le (p : Char → Bool) (src : List Char) (pos : Nat)
    (h : pos ≤ src.length) : scanWhile p src pos ≤ src.length := by
  have := scanWhileAux_le_length p (src.drop pos)
  simp only [List.length_drop] at this
  unfold scanWhile
  omega

theorem scanWhileAux_take (p : Char → Bool) :
    ∀ (xs : List Char) (m : Nat) (cm : Char), xs.get? m = some cm → p cm = false →
    scanWhileAux p (xs.take m) = scanWhileAux p xs := by
  intro xs
  induction xs with
  | nil => intro m cm h; simp [List.get?] at h
  | cons c rest ih =>
    intro m cm h hp
    cases m with
    | zero =>
      simp only [List.get?] at h
      cases h
      simp [scanWhileAux, hp]
    | succ m' =>
      simp only [List.get?] at h
      by_cases hc : p c = true <;>
        simp [scanWhileAux, hc, List.take_succ_cons, ih m' cm h hp]

theorem scanWhile_take_agree (p : Char → Bool) {src : List Char} {i : Nat} {ci : Char}
    (hi : src.get? i = some ci) (hci : p ci = false) (pos : Nat) (hpos : pos ≤ i) :
    scanWhile p (src.take i) pos = scanWhile p src pos := by
  unfold scanWhile
  congr 1
  rw [List.drop_take]
  apply scanWhileAux_take p (src.drop pos) (i - pos) ci _ hci
  rw [List.get?_eq_getElem?, List.getElem?_drop, ← List.get?_eq_getElem?,
    Nat.add_sub_cancel' hpos]
  exact hi

theorem slice_take_agree (src : List Char) (i a b : Nat) (hb : b ≤ i) :
    ((src.take i).drop a).take (b - a) = (src.drop a).take (b - a) := by
  rw [List.drop_take, List.take_take, Nat.min_eq_left (Nat.sub_le_sub_right hb a)]

theorem try_parse_identifier_stop_le (src : List Char) (pos : Nat) (t : Token) (p' : Nat)
    (h : try_parse_identifier src pos = some (t, p')) : p' ≤ src.length := by
  unfold try_parse_identifier at h
  cases hg : src.get? pos with
  | none => rw [hg] at h; exact absurd h (by simp)
  | some c =>
    rw [hg] at h
    by_cases ha : c.isAlpha = true
    · simp only [ha, if_true] at h
      have hlt := get?_some_lt hg
      have := scanWhile_le Char.isAlphanum src (pos + 1) hlt
      cases h
      exact this
    · simp [ha] at h

theorem try_parse_identifier_agree {src : List Char} {i : Nat} {ci : Char}
    (hi : src.get? i = some ci) (hbad : badChar ci) (pos : Nat) (hpos : pos ≤ i) :
    try_parse_identifier (src.take i) pos = try_parse_identifier src pos := by
  have hlen : i < src.length := get?_some_lt hi
  rcases Nat.lt_or_ge pos i with hlt | hge
  · have hg : (src.take i).get? pos = src.get? pos := by
      rw [List.get?_eq_getElem?, List.get?_eq_getElem?, List.getElem?_take_of_lt hlt]
    unfold try_parse_identifier
    rw [hg]
    cases hc : src.get? pos with
    | none => rfl
    | some c =>
      by_cases ha : c.isAlpha = true
      · have hscan := scanWhile_take_agree Char.isAlphanum hi (badChar_not_alphanum hbad)
          (pos + 1) hlt
        have hstop : scanWhile Char.isAlphanum (src.take i) (pos + 1) ≤ i := by
          have h1 : pos + 1 ≤ (src.take i).length := by
            simp [List.length_take]
            omega
          have := scanWhile_le Char.isAlphanum (src.take i) (pos + 1) h1
          simpa [List.length_take, Nat.min_eq_left (Nat.le_of_lt hlen)] using this
        simp only [ha, if_true, hscan]
        rw [← hscan]
        rw [slice_take_agree src i pos _ hstop]
      · simp [ha]
  · have hpe : pos = i := Nat.le_antisymm hpos hge
    subst hpe
    have hg : (src.take pos).get? pos = none := by
      rw [List.get?_eq_getElem?]
      apply List.getElem?_eq_none
      simp [List.length_take]
    unfold try_parse_identifier
    rw [hg, hi]
    simp [hbad.2.1]

theorem try_parse_number_stop_le (src : List Char) (pos : Nat) :
    (∀ t p', try_parse_number src pos = some (.ok (t, p')) → p' ≤ src.length) ∧
    (∀ pf, try_parse_number src pos = some (.error pf) → pf ≤ src.length) := by
  unfold try_parse_number
  cases hg : src.get? pos with
  | none => exact ⟨fun t p' h => absurd h (by simp), fun pf h => absurd h (by simp)⟩
  | some c =>
    by_cases hd : c.isDigit = true
    · have hlt := get?_some_lt hg
      have hb := scanWhile_le Char.isDigit src (pos + 1) hlt
      by_cases hv : digitsToNat ((src.drop pos).take
          (scanWhile Char.isDigit src (pos + 1) - pos)) ≤ 2147483647
      · refine ⟨fun t p' h => ?_, fun pf h => ?_⟩
        · simp only [hd, if_true, hv] at h
          cases h
          exact hb
        · simp [hd, hv] at h
      · refine ⟨fun t p' h => ?_, fun pf h => ?_⟩
        · simp [hd, hv] at h
        · simp only [hd, if_true, hv, if_false] at h
          cases h
          exact hb
    · exact ⟨fun t p' h => absurd h (by simp [hd]), fun pf h => absurd h (by simp [hd])⟩

theorem try_parse_number_agree {src : List Char} {i : Nat} {ci : Char}
    (hi : src.get? i = some ci) (hbad : badChar ci) (pos : Nat) (hpos : pos ≤ i) :
    try_parse_number (src.take i) pos = try_parse_number src pos := by
  have hlen : i < src.length := get?_some_lt hi
  rcases Nat.lt_or_ge pos i with hlt | hge
  · have hg : (src.take i).get? pos = src.get? pos := by
      rw [List.get?_eq_getElem?, List.get?_eq_getElem?, List.getElem?_take_of_lt hlt]
    unfold try_parse_number
    rw [hg]
    cases hc : src.get? pos with
    | none => rfl
    | some c =>
      by_cases hd : c.isDigit = true
      · have hscan := scanWhile_take_agree Char.isDigit hi hbad.2.2.1 (pos + 1) hlt
        have hstop : scanWhile Char.isDigit (src.take i) (pos + 1) ≤ i := by
          have h1 : pos + 1 ≤ (src.take i).length := by
            simp [List.length_take]
            omega
          have := scanWhile_le Char.isDigit (src.take i) (pos + 1) h1
          simpa [List.length_take, Nat.min_eq_left (Nat.le_of_lt hlen)] using this
        simp only [hd, if_true, hscan]
        rw [← hscan]
        rw [slice_take_agree src i pos _ hstop]
      · simp [hd]
  · have hpe : pos = i := Nat.le_antisymm hpos hge
    subst hpe
    have hg : (src.take pos).get? pos = none := by
      rw [List.get?_eq_getElem?]
      apply List.getElem?_eq_none
      simp [List.length_take]
    unfold try_parse_number
    rw [hg, hi]
    simp [hbad.2.2.1]

/-- Equation lemmas for `lexNext`, one per control path of `Lexer::next`. -/
theorem lexNext_eof {l : List Char} {pos : Nat}
    (hg : l.get? (skip_whitespace l pos) = none) : lexNext l pos = .eof := by
  rw [List.get?_eq_getElem?] at hg
  simp [lexNext, hg]

theorem lexNext_ident {l : List Char} {pos : Nat} {c : Char} {t : Token} {q : Nat}
    (hg : l.get? (skip_whitespace l pos) = some c)
    (hid : try_parse_identifier l (skip_whitespace l pos) = some (t, q)) :
    lexNext l pos = .tok t q := by
  rw [List.get?_eq_getElem?] at hg
  simp [lexNext, hg, hid]

theorem lexNext_num_ok {l : List Char} {pos : Nat} {c : Char} {t : Token} {q : Nat}
    (hg : l.get? (skip_whitespace l pos) = some c)
    (hid : try_parse_identifier l (skip_whitespace l pos) = none)
    (hnum : try_parse_number l (skip_whitespace l pos) = some (.ok (t, q))) :
    lexNext l pos = .tok t q := by
  rw [List.get?_eq_getElem?] at hg
  simp [lexNext, hg, hid, hnum]

theorem lexNext_num_err {l : List Char} {pos : Nat} {c : Char} {pf : Nat}
    (hg : l.get? (skip_whitespace l pos) = some c)
    (hid : try_parse_identifier l (skip_whitespace l pos) = none)
    (hnum : try_parse_number l (skip_whitespace l pos) = some (.error pf)) :
    lexNext l pos = .fail pf := by
  rw [List.get?_eq_getElem?] at hg
  simp [lexNext, hg, hid, hnum]

theorem lexNext_sym {l : List Char} {pos : Nat} {c : Char} {t : Token}
    (hg : l.get? (skip_whitespace l pos) = some c)
    (hid : try_parse_identifier l (skip_whitespace l pos) = none)
    (hnum : try_parse_number l (skip_whitespace l pos) = none)
    (hsym : symbolToken c = some t) :
    lexNext l pos = .tok t (skip_whitespace l pos + 1) := by
  rw [List.get?_eq_getElem?] at hg
  simp [lexNext, hg, hid, hnum, hsym]

theorem lexNext_bad {l : List Char} {pos : Nat} {c : Char}
    (hg : l.get? (skip_whitespace l pos) = some c)
    (hid : try_parse_identifier l (skip_whitespace l pos) = none)
    (hnum : try_parse_number l (skip_whitespace l pos) = none)
    (hsym : symbolToken c = none) :
    lexNext l pos = .fail (skip_whitespace l pos) := by
  rw [List.get?_eq_getElem?] at hg
  simp [lexNext, hg, hid, hnum, hsym]

theorem lexNext_tok_le (l : List Char) (pos : Nat) (t : Token) (p' : Nat)
    (h : lexNext l pos = .tok t p') : p' ≤ l.length := by
  cases hg : l.get? (skip_whitespace l pos) with
  | none => rw [lexNext_eof hg] at h; exact absurd h (by simp)
  | some c =>
    cases hid : try_parse_identifier l (skip_whitespace l pos) with
    | some r =>
      obtain ⟨t0, q⟩ := r
      rw [lexNext_ident hg hid] at h
      simp only [LexStep.tok.injEq] at h
      rcases h with ⟨h1, h2⟩
      subst h2
      exact try_parse_identifier_stop_le l _ t0 q hid
    | none =>
      cases hnum : try_parse_number l (skip_whitespace l pos) with
      | some r =>
        match r, hnum with
        | .ok (t0, q), hnum => ?_
        | .error pf, hnum => ?_
        · rw [lexNext_num_ok hg hid hnum] at h
          simp only [LexStep.tok.injEq] at h
          rcases h with ⟨h1, h2⟩
          subst h2
          exact (try_parse_number_stop_le l _).1 t0 q hnum
        · rw [lexNext_num_err hg hid hnum] at h
          exact absurd h (by simp)
      | none =>
        cases hsym : symbolToken c with
        | some t0 =>
          rw [lexNext_sym hg hid hnum hsym] at h
          simp only [LexStep.tok.injEq] at h
          rcases h with ⟨h1, h2⟩
          subst h2
          have := get?_some_lt hg
          omega
        | none =>
          rw [lexNext_bad hg hid hnum hsym] at h
          exact absurd h (by simp)

theorem lexNext_agree {src : List Char} {i : Nat} {ci : Char}
    (hi : src.get? i = some ci) (hbad : badChar ci) (pos : Nat) (hpos : pos ≤ i) :
    (lexNext (src.take i) pos = .eof → lexNext src pos = .fail i) ∧
    (∀ t p', lexNext (src.take i) pos = .tok t p' → lexNext src pos = .tok t p' ∧ p' ≤ i) ∧
    (∀ pf, lexNext (src.take i) pos = .fail pf → lexNext src pos = .fail pf) := by
  have hlen : i < src.length := get?_some_lt hi
  have htlen : (src.take i).length = i := by
    simp [List.length_take]
    omega
  have hskip : skip_whitespace (src.take i) pos = skip_whitespace src pos := by
    unfold skip_whitespace
    exact scanWhile_take_agree Char.isWhitespace hi hbad.1 pos hpos
  have hPle : skip_whitespace src pos ≤ i := by
    have h1 : pos ≤ (src.take i).length := by omega
    have h2 := scanWhile_le Char.isWhitespace (src.take i) pos h1
    rw [htlen] at h2
    calc skip_whitespace src pos = skip_whitespace (src.take i) pos := hskip.symm
      _ ≤ i := h2
  have hbound : ∀ t p', lexNext (src.take i) pos = .tok t p' → p' ≤ i := by
    intro t p' h
    have := lexNext_tok_le (src.take i) pos t p' h
    omega
  rcases Nat.lt_or_ge (skip_whitespace src pos) i with hPlt | hPge
  · -- the skipped-to position is before the bad character: both lexers agree
    have hgsome : ∃ c, src.get? (skip_whitespace src pos) = some c := by
      cases hq : src.get? (skip_whitespace src pos) with
      | none =>
        rw [List.get?_eq_getElem?] at hq
        have := List.getElem?_eq_none_iff.mp hq
        omega
      | some c => exact ⟨c, rfl⟩
    obtain ⟨c, hc⟩ := hgsome
    have hgt : (src.take i).get? (skip_whitespace (src.take i) pos) = some c := by
      rw [hskip, List.get?_eq_getElem?, List.getElem?_take_of_lt hPlt,
        ← List.get?_eq_getElem?]
      exact hc
    have hident := try_parse_identifier_agree hi hbad (skip_whitespace src pos)
      (Nat.le_of_lt hPlt)
    have hnumagree := try_parse_number_agree hi hbad (skip_whitespace src pos)
      (Nat.le_of_lt hPlt)
    cases hid : try_parse_identifier src (skip_whitespace src pos) with
    | some r =>
      obtain ⟨t0, q⟩ := r
      have hidt : try_parse_identifier (src.take i) (skip_whitespace (src.take i) pos) =
          some (t0, q) := by rw [hskip, hident, hid]
      have hvt := lexNext_ident hgt hidt
      have hvs := lexNext_ident hc hid
      refine ⟨?_, ?_, ?_⟩
      · intro h; rw [hvt] at h; exact absurd h (by simp)
      · intro t p' h
        rw [hvt] at h
        exact ⟨by rw [hvs, h], hbound t p' (by rw [hvt, h])⟩
      · intro pf h; rw [hvt] at h; exact absurd h (by simp)
    | none =>
      have hidt : try_parse_identifier (src.take i) (skip_whitespace (src.take i) pos) =
          none := by rw [hskip, hident, hid]
      cases hnum : try_parse_number src (skip_whitespace src pos) with
      | some r =>
        match r, hnum with
        | .ok (t0, q), hnum => ?_
        | .error pf0, hnum => ?_
        · have hnumt : try_parse_number (src.take i) (skip_whitespace (src.take i) pos) =
              some (.ok (t0, q)) := by rw [hskip, hnumagree, hnum]
          have hvt := lexNext_num_ok hgt hidt hnumt
          have hvs := lexNext_num_ok hc hid hnum
          refine ⟨?_, ?_, ?_⟩
          · intro h; rw [hvt] at h; exact absurd h (by simp)
          · intro t p' h
            rw [hvt] at h
            exact ⟨by rw [hvs, h], hbound t p' (by rw [hvt, h])⟩
          · intro pf h; rw [hvt] at h; exact absurd h (by simp)
        · have hnumt : try_parse_number (src.take i) (skip_whitespace (src.take i) pos) =
              some (.error pf0) := by rw [hskip, hnumagree, hnum]
          have hvt := lexNext_num_err hgt hidt hnumt
          have hvs := lexNext_num_err hc hid hnum
          refine ⟨?_, ?_, ?_⟩
          · intro h; rw [hvt] at h; exact absurd h (by simp)
          · intro t p' h; rw [hvt] at h; exact absurd h (by simp)
          · intro pf h
            rw [hvt] at h
            rw [hvs, h]
      | none =>
        have hnumt : try_parse_number (src.take i) (skip_whitespace (src.take i) pos) =
            none := by rw [hskip, hnumagree, hnum]
        cases hsym : symbolToken c with
        | some t0 =>
          have hvt := lexNext_sym hgt hidt hnumt hsym
          have hvs := lexNext_sym hc hid hnum hsym
          rw [hskip] at hvt
          refine ⟨?_, ?_, ?_⟩
          · intro h; rw [hvt] at h; exact absurd h (by simp)
          · intro t p' h
            rw [hvt] at h
            exact ⟨by rw [hvs, h], hbound t p' (by rw [hvt, h])⟩
          · intro pf h; rw [hvt] at h; exact absurd h (by simp)
        | none =>
          have hvt := lexNext_bad hgt hidt hnumt hsym
          have hvs := lexNext_bad hc hid hnum hsym
          rw [hskip] at hvt
          refine ⟨?_, ?_, ?_⟩
          · intro h; rw [hvt] at h; exact absurd h (by simp)
          · intro t p' h; rw [hvt] at h; exact absurd h (by simp)
          · intro pf h
            rw [hvt] at h
            rw [hvs, h]
  · -- the lexer skips straight to the bad character
    have hPi : skip_whitespace src pos = i := Nat.le_antisymm hPle hPge
    have hgt : (src.take i).get? (skip_whitespace (src.take i) pos) = none := by
      rw [hskip, hPi, List.get?_eq_getElem?]
      apply List.getElem?_eq_none
      omega
    have hvt := lexNext_eof hgt
    have hgs : src.get? (skip_whitespace src pos) = some ci := by rw [hPi]; exact hi
    have hids : try_parse_identifier src (skip_whitespace src pos) = none := by
      unfold try_parse_identifier
      rw [hgs]
      simp [hbad.2.1]
    have hnums : try_parse_number src (skip_whitespace src pos) = none := by
      unfold try_parse_number
      rw [hgs]
      simp [hbad.2.2.1]
    have hvs : lexNext src pos = .fail i := by
      rw [← hPi]
      exact lexNext_bad hgs hids hnums hbad.2.2.2
    refine ⟨fun _ => hvs, ?_, ?_⟩
    · intro t p' h; rw [hvt] at h; exact absurd h (by simp)
    · intro pf h; rw [hvt] at h; exact absurd h (by simp)

theorem lexRun_agree {src : List Char} {i : Nat} {ci : Char}
    (hi : src.get? i = some ci) (hbad : badChar ci) :
    ∀ (fuel pos : Nat), pos ≤ i →
    (lexRun fuel (src.take i) pos).2 = .done →
    lexRun fuel src pos = ((lexRun fuel (src.take i) pos).1, .failed i) := by
  intro fuel
  induction fuel with
  | zero => intro pos _ h; simp [lexRun] at h
  | succ n ih =>
    intro pos hpos hdone
    obtain ⟨h1, h2, h3⟩ := lexNext_agree hi hbad pos hpos
    cases hstep : lexNext (src.take i) pos with
    | eof =>
      have hs := h1 hstep
      simp only [lexRun, hstep]
      simp [lexRun, hs]
    | fail p =>
      simp [lexRun, hstep] at hdone
    | tok t p' =>
      obtain ⟨hsrc, hple⟩ := h2 t p' hstep
      have hface : lexRun (n + 1) (src.take i) pos =
          (t :: (lexRun n (src.take i) p').1, (lexRun n (src.take i) p').2) := by
        simp [lexRun, hstep]
      rw [hface] at hdone
      have hrec := ih p' hple hdone
      rw [hface]
      simp [lexRun, hsrc, hrec]

theorem lexRun_mono (src : List Char) :
    ∀ (fuel fuel' pos : Nat), fuel ≤ fuel' → (lexRun fuel src pos).2 ≠ .fuelOut →
    lexRun fuel' src pos = lexRun fuel src pos := by
  intro fuel
  induction fuel with
  | zero => intro fuel' pos _ h; simp [lexRun] at h
  | succ n ih =>
    intro fuel' pos hle hne
    cases fuel' with
    | zero => omega
    | succ m =>
      cases hstep : lexNext src pos with
      | eof => simp [lexRun, hstep]
      | fail p => simp [lexRun, hstep]
      | tok t p' =>
        have hne' : (lexRun n src p').2 ≠ .fuelOut := by
          intro hcon
          apply hne
          simp [lexRun, hstep, hcon]
        have hm := ih m p' (by omega) hne'
        simp [lexRun, hstep, hm]

/-- Counterexample to claim C6 as stated: in `9999999999 @` the only
character that starts no token is the `@` at index 11, yet the lexer fails
with its cursor at index 10 (on the space, while unwrapping the overflowing
numeric literal), not on reaching the `@`; and the digit run before the `@`
is not produced as a token. -/
theorem claim_C6_counterexample :
    lexAll "9999999999 @".toList = ([], .failed 10) ∧
    "9999999999 @".toList.get? 11 = some '@' ∧ badChar '@' ∧
    "9999999999 @".toList.get? 10 = some ' ' ∧ ¬ badChar ' ' :=
  ⟨rfl, rfl, by decide, rfl, by decide⟩

/-- Claim C6, amended: for every input containing a character that starts
neither whitespace, an identifier, a number, nor one of the five symbols —
PROVIDED the text before that character lexes without failure (in
particular, no overflowing numeric literal precedes it) — the lexer fails
fatally exactly when its cursor reaches that character: the tokens produced
are exactly the tokens of the preceding text, and no token at or after the
character is ever produced. -/
theorem claim_C6_fail_at_bad_char (src : List Char) (i : Nat) (ci : Char)
    (hi : src.get? i = some ci) (hbad : badChar ci)
    (hpre : (lexAll (src.take i)).2 = .done) :
    lexAll src = ((lexAll (src.take i)).1, .failed i) := by
  have hlen : i < src.length := get?_some_lt hi
  have htlen : (src.take i).length = i := by
    simp [List.length_take]
    omega
  have hAllTake : lexAll (src.take i) = lexRun (i + 1) (src.take i) 0 := by
    unfold lexAll
    rw [htlen]
  rw [hAllTake] at hpre ⊢
  have hagree := lexRun_agree hi hbad (i + 1) 0 (Nat.zero_le i) hpre
  have hmono := lexRun_mono src (i + 1) (src.length + 1) 0 (by omega)
    (by rw [hagree]; simp)
  unfold lexAll
  rw [hmono, hagree]

/-- Witness for the amended C6: in `let x = @` the `@` at index 8 is the bad
character, the text before it lexes cleanly to three tokens, and the lexer
fails exactly at index 8 having produced exactly those three tokens. -/
theorem claim_C6_witness :
    lexAll "let x = @".toList = ((lexAll ("let x = @".toList.take 8)).1, .failed 8) ∧
    (lexAll ("let x = @".toList.take 8)).1 =
      [Token.Let, Token.Identifier "x", Token.Equals] :=
  ⟨claim_C6_fail_at_bad_char "let x = @".toList 8 '@' rfl (by decide) rfl, rfl⟩

theorem keywordOrIdent_ne_number (s : String) (n : Int) :
    keywordOrIdent s ≠ Token.Number n := by
  unfold keywordOrIdent
  by_cases h1 : s = "let" <;> by_cases h2 : s = "loop" <;> by_cases h3 : s = "print" <;>
    simp [h1, h2, h3]

theorem symbolToken_ne_number (c : Char) (t : Token) (n : Int)
    (h : symbolToken c = some t) : t ≠ Token.Number n := by
  unfold symbolToken at h
  by_cases h1 : c = '+' <;> by_cases h2 : c = '=' <;> by_cases h3 : c = ';' <;>
    by_cases h4 : c = '\x7b' <;> by_cases h5 : c = '\x7d' <;> simp_all <;>
    exact fun hcon => by rw [hcon] at h; exact absurd h (by simp)

theorem try_parse_identifier_shape (src : List Char) (pos : Nat) (t : Token) (q : Nat)
    (h : try_parse_identifier src pos = some (t, q)) : ∃ s, t = keywordOrIdent s := by
  unfold try_parse_identifier at h
  cases hg : src.get? pos with
  | none => rw [hg] at h; exact absurd h (by simp)
  | some c =>
    rw [hg] at h
    by_cases ha : c.isAlpha = true
    · simp only [ha, if_true, Option.some.injEq, Prod.mk.injEq] at h
      exact ⟨_, h.1.symm⟩
    · simp [ha] at h

theorem try_parse_number_ok_shape (src : List Char) (pos : Nat) (t : Token) (q : Nat)
    (h : try_parse_number src pos = some (.ok (t, q))) :
    q = scanWhile Char.isDigit src (pos + 1) ∧
    t = Token.Number (Int.ofNat (digitsToNat ((src.drop pos).take (q - pos)))) ∧
    digitsToNat ((src.drop pos).take (q - pos)) ≤ 2147483647 := by
  unfold try_parse_number at h
  cases hg : src.get? pos with
  | none => rw [hg] at h; exact absurd h (by simp)
  | some c =>
    rw [hg] at h
    by_cases hd : c.isDigit = true
    · by_cases hv : digitsToNat ((src.drop pos).take
          (scanWhile Char.isDigit src (pos + 1) - pos)) ≤ 2147483647
      · simp only [hd, if_true, hv, Option.some.injEq, Except.ok.injEq,
          Prod.mk.injEq] at h
        obtain ⟨ht, hq⟩ := h
        subst hq
        exact ⟨rfl, ht.symm, hv⟩
      · simp [hd, hv] at h
    · simp [hd] at h

/-- Counterexample to claim C7 as stated: `@ 9999999999` contains a maximal
digit run (indices 2 to 11) whose value 9999999999 exceeds the `i32` range,
but lexing fails at index 0 (the `@`), not at that literal. -/
theorem claim_C7_counterexample :
    lexAll "@ 9999999999".toList = ([], .failed 0) ∧
    ("@ 9999999999".toList.drop 2).all Char.isDigit = true ∧
    digitsToNat ("@ 9999999999".toList.drop 2) = 9999999999 ∧
    2147483647 < 9999999999 := by
  refine ⟨rfl, rfl, rfl, by norm_num⟩

/-- Claim C7, amended: when the lexer's cursor reaches a digit run whose
decimal value exceeds the signed 32-bit range, that call fails fatally (with
the cursor moved past the digits, where `unwrap` panics); and every `Number`
token the lexer ever produces carries the exact decimal value of its digit
run, which is at most 2147483647 — never a silently wrapped value. -/
theorem claim_C7_overflow_fatal :
    (∀ (src : List Char) (pos p stop : Nat) (c : Char),
      p = skip_whitespace src pos →
      src.get? p = some c → c.isDigit = true →
      stop = scanWhile Char.isDigit src (p + 1) →
      2147483647 < digitsToNat ((src.drop p).take (stop - p)) →
      lexNext src pos = .fail stop) ∧
    (∀ (src : List Char) (pos : Nat) (n : Int) (p' : Nat),
      lexNext src pos = .tok (Token.Number n) p' →
      n = Int.ofNat (digitsToNat ((src.drop (skip_whitespace src pos)).take
        (p' - skip_whitespace src pos))) ∧
      digitsToNat ((src.drop (skip_whitespace src pos)).take
        (p' - skip_whitespace src pos)) ≤ 2147483647) := by
  constructor
  · intro src pos p stop c hp hg hd hstop hover
    subst hp
    subst hstop
    have hid : try_parse_identifier src (skip_whitespace src pos) = none := by
      unfold try_parse_identifier
      rw [hg]
      simp [isDigit_not_isAlpha hd]
    have hnum : try_parse_number src (skip_whitespace src pos) =
        some (.error (scanWhile Char.isDigit src (skip_whitespace src pos + 1))) := by
      unfold try_parse_number
      rw [hg]
      simp [hd, Nat.not_le.mpr hover]
    exact lexNext_num_err hg hid hnum
  · intro src pos n p' h
    cases hg : src.get? (skip_whitespace src pos) with
    | none => rw [lexNext_eof hg] at h; exact absurd h (by simp)
    | some c =>
      cases hid : try_parse_identifier src (skip_whitespace src pos) with
      | some r =>
        obtain ⟨t0, q⟩ := r
        rw [lexNext_ident hg hid] at h
        simp only [LexStep.tok.injEq] at h
        obtain ⟨s, hs⟩ := try_parse_identifier_shape src _ t0 q hid
        exact absurd (h.1.symm.trans hs) (fun hcon => keywordOrIdent_ne_number s n hcon.symm)
      | none =>
        cases hnum : try_parse_number src (skip_whitespace src pos) with
        | some r =>
          match r, hnum with
          | .ok (t0, q), hnum => ?_
          | .error pf0, hnum => ?_
          · rw [lexNext_num_ok hg hid hnum] at h
            simp only [LexStep.tok.injEq] at h
            obtain ⟨hq, ht, hle⟩ := try_parse_number_ok_shape src _ t0 q hnum
            obtain ⟨h1, h2⟩ := h
            subst h2
            rw [h1] at ht
            simp only [Token.Number.injEq] at ht
            exact ⟨ht, hle⟩
          · rw [lexNext_num_err hg hid hnum] at h
            exact absurd h (by simp)
        | none =>
          cases hsym : symbolToken c with
          | some t0 =>
            rw [lexNext_sym hg hid hnum hsym] at h
            simp only [LexStep.tok.injEq] at h
            exact absurd h.1.symm (fun hcon => symbolToken_ne_number c t0 n hsym (hcon.symm ▸ rfl))
          | none =>
            rw [lexNext_bad hg hid hnum hsym] at h
            exact absurd h (by simp)

/-- Witness for the amended C7: the lexer fails at the overflowing literal
`9999999999` with its cursor at index 10, and the `Number` token produced
for `42` carries exactly the value 42. -/
theorem claim_C7_witness :
    lexNext "9999999999".toList 0 = .fail 10 ∧
    ((42 : Int) = Int.ofNat (digitsToNat
        (("42".toList.drop (skip_whitespace "42".toList 0)).take
          (2 - skip_whitespace "42".toList 0))) ∧
      digitsToNat (("42".toList.drop (skip_whitespace "42".toList 0)).take
          (2 - skip_whitespace "42".toList 0)) ≤ 2147483647) :=
  ⟨claim_C7_overflow_fatal.1 "9999999999".toList 0 0 10 '9' rfl rfl rfl rfl
      (by decide),
    claim_C7_overflow_fatal.2 "42".toList 0 42 2 rfl⟩
